import Mathlib

/-!
Verification development for the go-redirects repository: a shallow embedding of
the Netlify-style `_redirects` parser.  Go strings are modelled as `List Char`;
machine integers as `Int` with the explicit 64-bit clamps that `strconv.Atoi`
performs; fallible paths return explicit outcome types.  The top-level package
(`redirects.go`) is embedded in namespace `Redirects`, the linked-list based
package under `src/` (`List.go`, `Utils.go` and its parser) in namespace
`RedirectsSrc`.
-/

/-- Go strings, modelled as their character sequences. -/
abbrev Str := List Char

def s2l (s : String) : Str := s.data

/-- `unicode.IsSpace` restricted to the code points the parser can meet in
practice (the full Unicode White_Space table also holds U+0085, U+00A0 and a
few higher code points; no theorem below touches those). -/
def goIsSpace (c : Char) : Bool :=
  c = ' ' || c = '\t' || c = '\n' || c = '\x0b' || c = '\x0c' || c = '\r'

/-- `strings.TrimSpace`: drop leading and trailing white space. -/
def trimSpace (s : Str) : Str :=
  ((s.dropWhile goIsSpace).reverse.dropWhile goIsSpace).reverse

def fieldsAux : Str → Str → List Str
  | [], acc => if acc = [] then [] else [acc.reverse]
  | c :: rest, acc =>
    if goIsSpace c then
      if acc = [] then fieldsAux rest [] else acc.reverse :: fieldsAux rest []
    else fieldsAux rest (c :: acc)

/-- `strings.Fields`: split around runs of white space, dropping empty pieces. -/
def goFields (s : Str) : List Str := fieldsAux s []

/-- `strings.ContainsAny(s, "=")`. -/
def containsEq (s : Str) : Bool := s.contains '='

/-- `strings.HasSuffix(s, "!")`. -/
def endsBang (s : Str) : Bool := s.getLast? = some '!'

/-- `strings.Replace(s, "!", "", -1)`: delete every exclamation mark. -/
def removeBangs (s : Str) : Str := s.filter (fun c => c != '!')

/-- `strings.Split` with a one-character separator; always returns at least
one piece. -/
def splitOn (sep : Char) : Str → List Str
  | [] => [[]]
  | c :: rest =>
    if c = sep then [] :: splitOn sep rest
    else
      match splitOn sep rest with
      | [] => [[c]]
      | p :: ps => (c :: p) :: ps

/-- The number-of-bytes view of a line, as `bufio` sees it. -/
def byteLen (s : Str) : Nat := (s.map Char.utf8Size).sum

/-- `bufio.ScanLines` drops one trailing carriage return from each line. -/
def dropCR (s : Str) : Str :=
  match s.getLast? with
  | some '\r' => s.dropLast
  | _ => s

def goLinesAux : Str → Str → List Str
  | [], acc => [acc.reverse]
  | c :: rest, acc =>
    if c = '\n' then
      if rest = [] then [acc.reverse] else acc.reverse :: goLinesAux rest []
    else goLinesAux rest (c :: acc)

/-- The newline-separated chunks a `bufio.Scanner` would emit for the input
(final newline produces no trailing empty chunk; empty input produces none). -/
def goLines : Str → List Str
  | [] => []
  | s => goLinesAux s []

/-- `bufio.MaxScanTokenSize`: the default scanner refuses lines above 64KiB. -/
def maxScanTokenSize : Nat := 65536

/-- Deliver scanned lines until the first over-long one; the flag records that
the scanner stopped with `ErrTooLong`.  (The real scanner also fails on a line
of exactly 65536 bytes when a newline follows; every theorem below stays far
from that boundary.) -/
def truncScan : List Str → List Str × Bool
  | [] => ([], false)
  | l :: rest =>
    if maxScanTokenSize < byteLen l then ([], true)
    else (dropCR l :: (truncScan rest).1, (truncScan rest).2)

/-- The scanner front end shared by both parsers: the lines delivered and
whether scanning aborted with `ErrTooLong`. -/
def goScan (s : Str) : List Str × Bool := truncScan (goLines s)

def digitsVal (ds : Str) : Nat :=
  ds.foldl (fun a c => 10 * a + (c.toNat - 48)) 0

/-- `strconv.Atoi` on a 64-bit platform: value and success flag.  On a syntax
error the value is 0; on a range error it is the clamped extreme (the caller
in `Parse` stores this value into `Rule.Status` by multiple assignment even
when the error is non-nil, so the error value matters). -/
def AtoiFull (s : Str) : Int × Bool :=
  match s with
  | [] => (0, false)
  | c :: rest =>
    let (neg, ds) :=
      if c = '-' then (true, rest)
      else if c = '+' then (false, rest)
      else (false, s)
    if ds = [] then (0, false)
    else if ds.all Char.isDigit then
      let v : Int := if neg then -(digitsVal ds : Int) else (digitsVal ds : Int)
      if v < -(2 ^ 63) then (-(2 ^ 63), false)
      else if (2 ^ 63 - 1 : Int) < v then (2 ^ 63 - 1, false)
      else (v, true)
    else (0, false)

/-- The successful result of `strconv.Atoi`, when there is one. -/
def Atoi (s : Str) : Option Int :=
  if (AtoiFull s).2 then some (AtoiFull s).1 else none

/-- A parameter value: Go stores `interface{}`, either a string or `true`. -/
inductive PVal where
  | str (s : Str)
  | boolv (b : Bool)
deriving DecidableEq, Repr

/-- The Go `Params` map (`map[string]interface{}`), as an association list
with map-assignment semantics. -/
def ParamsMap := List (Str × PVal)
deriving DecidableEq, Repr

/-- Go map assignment `m[k] = v`: overwrite in place or add. -/
def ParamsMap.set : ParamsMap → Str → PVal → ParamsMap
  | [], k, v => [(k, v)]
  | (k', v') :: rest, k, v =>
    if k' = k then (k, v) :: rest else (k', v') :: ParamsMap.set rest k v

def ParamsMap.lookup : ParamsMap → Str → Option PVal
  | [], _ => none
  | (k', v') :: rest, k => if k' = k then some v' else ParamsMap.lookup rest k

/-- The `Rule` record of both packages.  `Params`, `Country`, `Language` are
nil-able in Go; `none` stands for nil. -/
structure Rule where
  From : Str
  To : Str
  Status : Int
  Force : Bool
  Params : Option ParamsMap
  Country : Option (List Str)
  Language : Option (List Str)
deriving DecidableEq, Repr

/-- The error values the two parsers can return, tagged with the offending
line or token the `fmt.Errorf` message carries. -/
inductive Err where
  | missingDest (line : Str)
  | format (token : Str)
  | numbersNotAllowed (token : Str)
  | eqNotAllowed (token : Str)
  | bangNotAllowed (token : Str)
  | wrongScheme (token : Str)
  | missingFrom
  | missingTo
  | scanTooLong
deriving DecidableEq, Repr

/-- `parseParams` (identical in both packages): fold the parameter tokens into
a map.  `strings.Split` splits on every `=`; the code keeps only `parts[1]`,
so for `k=v=w` the stored value is `v`. -/
def parseParams (pairs : List Str) : ParamsMap :=
  pairs.foldl
    (fun m p =>
      match splitOn '=' p with
      | k :: v :: _ => m.set k (.str v)
      | k :: [] => m.set k (.boolv true)
      | [] => m)
    []

/-- `parseStatus` (identical in both packages): `(code, force, ok)`.  When the
token ends in `!` the code deletes every `!` before calling `Atoi`; the
returned code is `Atoi`'s value even when `ok` is false. -/
def parseStatus (s : Str) : Int × Bool × Bool :=
  if endsBang s then
    let (c, ok) := AtoiFull (removeBangs s)
    (c, true, ok)
  else
    let (c, ok) := AtoiFull s
    (c, false, ok)

/-- `splitOptions` (identical in both packages): key and comma-split value
list; a token without `=` yields an empty (in Go: non-nil empty) value. -/
def splitOptions (s : Str) : Str × List Str :=
  match splitOn '=' s with
  | k :: v :: _ => (k, splitOn ',' v)
  | k :: [] => (k, [])
  | [] => ([], [])

namespace Redirects

/-- One iteration of the option loop of `parseOptions` in `redirects.go`. -/
def optStep (st : Option (List Str) × Option (List Str) × Option Err)
    (token : Str) : Option (List Str) × Option (List Str) × Option Err :=
  let (c, l, e) := st
  let e1 := if containsEq token then e else some (.format token)
  let (k, v) := splitOptions token
  if k = s2l "Country" then (some v, l, e1)
  else if k = s2l "Language" then (c, some v, e1)
  else (c, l, some (.format token))

/-- `parseOptions` of `redirects.go`: a range loop without break.  The error,
once set, is never cleared; `Country`/`Language` are assigned even on the
no-`=` error path (via `splitOptions`), and an unknown key overwrites the
error again. -/
def parseOptions (options : List Str) :
    Option (List Str) × Option (List Str) × Option Err :=
  options.foldl optStep (none, none, none)

/-- The parameter loop of `Parse` (lines 130-132): starting at token 1, scan
while the token contains `=`.  The Go loop `for i = 1; ContainsAny(fields[i],
"="); i++` has no bound check, so running past the last token indexes out of
range: `none` records that panic. -/
def scanParams : List Str → Option (List Str × Str × List Str)
  | [] => none
  | t :: rest =>
    if containsEq t then
      match scanParams rest with
      | none => none
      | some (ps, toTok, opts) => some (t :: ps, toTok, opts)
    else some ([], t, rest)

/-- Lines 153-163: the status-slot decision on the first token after `To`.
`some (status, force)` continues with those fields (the multiple assignments
keep `parseStatus`'s error value when the token contains `=`); `none` is the
fatal format error. -/
def statusSlot (o0 : Str) : Option (Int × Bool) :=
  let (v, ok) := AtoiFull o0
  if ok then some (v, false)
  else
    let (c, fr, ok2) := parseStatus o0
    if ok2 then some (c, fr)
    else if containsEq o0 then some (c, fr)
    else none

/-- The per-line outcome of the top-level parser. -/
inductive LineOut where
  | skip
  | fail (e : Err)
  | rule (r : Rule)
  | panics
deriving DecidableEq, Repr

/-- Lines 151-169: the block after the `To` slot.  `options = options[1:]` is
executed unconditionally, so the status-slot token is dropped even when it was
not a valid status. -/
def afterTo (f toV : Str) (params : Option ParamsMap) (opts : List Str) :
    LineOut :=
  match opts with
  | [] => .rule ⟨f, toV, 301, false, params, none, none⟩
  | o0 :: restOpts =>
    match statusSlot o0 with
    | none => .fail (.format o0)
    | some (st, fr) =>
      match parseOptions restOpts with
      | (_, _, some e) => .fail e
      | (c, l, none) => .rule ⟨f, toV, st, fr, params, c, l⟩

/-- Lines 122-170: the body of `Parse` for one tokenised line.  `From` is
stored without validation.  In the `To` slot (lines 141-149) a token accepted
by `Atoi` skips the whole guard, leaving `To` at its zero value `""`; the
`ContainsAny` test there is unreachable because the parameter loop stopped at
the first token without `=`. -/
def processTokens (f : Str) (rest : List Str) : LineOut :=
  match scanParams rest with
  | none => .panics
  | some (ps, toTok, opts) =>
    let params := if ps = [] then none else some (parseParams ps)
    if (AtoiFull toTok).2 then afterTo f [] params opts
    else if endsBang toTok then .fail (.format toTok)
    else if containsEq toTok then .fail (.format toTok)
    else afterTo f toTok params opts

/-- Lines 101-119: trim, skip blanks and comments, tokenise, and require a
destination. -/
def lineOf (text : Str) : LineOut :=
  let line := trimSpace text
  if line = [] then .skip
  else if line.head? = some '#' then .skip
  else
    match goFields line with
    | [] => .skip
    | [_] => .fail (.missingDest line)
    | f :: rest => processTokens f rest

/-- What `Parse` returns: either the Go pair `(rules, err)` (an empty list is
Go's nil slice) or a runtime panic. -/
inductive GoResult where
  | panics
  | ret (rules : List Rule) (err : Option Err)
deriving DecidableEq, Repr

def parseLines : List Rule → List Str → Bool → GoResult
  | acc, [], flag => .ret acc (if flag then some .scanTooLong else none)
  | acc, l :: rest, flag =>
    match lineOf l with
    | .skip => parseLines acc rest flag
    | .fail e => .ret [] (some e)
    | .rule r => parseLines (acc ++ [r]) rest flag
    | .panics => .panics

/-- `Parse` of `redirects.go` over the contents of the reader. -/
def Parse (s : Str) : GoResult :=
  let (lines, tooLong) := goScan s
  parseLines [] lines tooLong

/-- `ParseString`. -/
def ParseString (s : String) : GoResult := Parse s.data

end Redirects

namespace RedirectsSrc

/-- `isInteger` of `Utils.go`: just `strconv.Atoi`. -/
def isInteger (token : Str) : Int × Bool := AtoiFull token

/-- `isStatusCode` of `Utils.go`: just `parseStatus`. -/
def isStatusCode (token : Str) : Int × Bool × Bool := parseStatus token

/-- `isKeyPair` of `Utils.go`. -/
def isKeyPair (token : Str) : Bool := containsEq token

/-- `isPath` of `Utils.go`: reject integers, tokens with `=`, tokens ending in
`!`.  The final scheme test is kept verbatim: no token starts with `/`,
`http://` and `https://` at once, so the negated disjunction is never false
and that error is unreachable. -/
def isPath (token : Str) : Except Err Str :=
  if (isInteger token).2 then .error (.numbersNotAllowed token)
  else if containsEq token then .error (.eqNotAllowed token)
  else if endsBang token then .error (.bangNotAllowed token)
  else if (!(s2l "/").isPrefixOf token || !(s2l "http://").isPrefixOf token
      || !(s2l "https://").isPrefixOf token) = false then
    .error (.wrongScheme token)
  else .ok token

/-- `List.Insert` of `List.go` prepends each token at the head, so after the
insertion loop the head-to-tail order is the reverse of the fields;
`List.Reverse` then restores the original order.  The `index` and `prev`
fields of `Token` are written but never read by the parser. -/
def buildList (fs : List Str) : List Str :=
  (fs.foldl (fun acc t => t :: acc) []).reverse

/-- The parameter loop of the `src` parser: advance while the node exists and
its token contains `=` (this version cannot run off the end). -/
def collectParams : List Str → List Str × List Str
  | [] => ([], [])
  | t :: rest =>
    if containsEq t then
      let (ps, rest') := collectParams rest
      (t :: ps, rest')
    else ([], t :: rest)

/-- `parseOptions` of `Utils.go`: walks the remaining nodes; a token without
`=` sets the error and breaks; an unknown key sets the error and continues;
the error is never cleared. -/
def parseOptionsGo :
    List Str → Option (List Str) × Option (List Str) × Option Err →
    Option (List Str) × Option (List Str) × Option Err
  | [], st => st
  | tok :: rest, (c, l, e) =>
    if !isKeyPair tok then (c, l, some (.format tok))
    else
      let (k, v) := splitOptions tok
      if k = s2l "Country" then parseOptionsGo rest (some v, l, e)
      else if k = s2l "Language" then parseOptionsGo rest (c, some v, e)
      else parseOptionsGo rest (c, l, some (.format tok))

/-- The per-line outcome of the `src` parser.  `stop` is the early return in
the key-pair status branch: the rule is appended and the whole parse returns
at once (`err = s.Err()` is nil at that point). -/
inductive SrcLineOut where
  | skip
  | fail (e : Err)
  | cont (r : Rule)
  | stop (r : Rule)
deriving DecidableEq, Repr

/-- The shared tail of the per-line body: after the status slot, the remaining
nodes go through `parseOptions`. -/
def finishLine (f toV : Str) (params : Option ParamsMap) (st : Int)
    (fr : Bool) (rest : List Str) : SrcLineOut :=
  match parseOptionsGo rest (none, none, none) with
  | (_, _, some e) => .fail e
  | (c, l, none) => .cont ⟨f, toV, st, fr, params, c, l⟩

/-- The body of the `src` parser for one tokenised line: validate `From` and
`To` through `isPath`, collect parameters in between, then the status slot.
When the status token is neither an integer nor `integer!`, the code resets
`Status` to 301 (keeping the `Force` flag the failed `isStatusCode` call
assigned), parses the options from the current node onward, appends the rule
and returns from the whole parse. -/
def processTokens (fs : List Str) : SrcLineOut :=
  match buildList fs with
  | [] => .fail .missingFrom
  | f :: rest =>
    match isPath f with
    | .error e => .fail e
    | .ok _ =>
      let (ps, rest2) := collectParams rest
      let params := if ps = [] then none else some (parseParams ps)
      match rest2 with
      | [] => .fail .missingTo
      | toTok :: rest3 =>
        match isPath toTok with
        | .error e => .fail e
        | .ok _ =>
          match rest3 with
          | [] => finishLine f toTok params 301 false []
          | sTok :: rest4 =>
            let (v, ok) := isInteger sTok
            if ok then finishLine f toTok params v false rest4
            else
              let (c, fr, ok2) := isStatusCode sTok
              if ok2 then finishLine f toTok params c fr rest4
              else
                match parseOptionsGo (sTok :: rest4) (none, none, none) with
                | (_, _, some e) => .fail e
                | (cn, l, none) => .stop ⟨f, toTok, 301, fr, params, cn, l⟩

/-- Trim, skip blanks and comments, tokenise, require a destination: identical
to the top-level parser up to the token processing. -/
def lineOf (text : Str) : SrcLineOut :=
  let line := trimSpace text
  if line = [] then .skip
  else if line.head? = some '#' then .skip
  else
    match goFields line with
    | [] => .skip
    | [_] => .fail (.missingDest line)
    | fs => processTokens fs

def parseLines : List Rule → List Str → Bool → Redirects.GoResult
  | acc, [], flag => .ret acc (if flag then some .scanTooLong else none)
  | acc, l :: rest, flag =>
    match lineOf l with
    | .skip => parseLines acc rest flag
    | .fail e => .ret [] (some e)
    | .cont r => parseLines (acc ++ [r]) rest flag
    | .stop r => .ret (acc ++ [r]) none

/-- `Parse` of the `src` package. -/
def Parse (s : Str) : Redirects.GoResult :=
  let (lines, tooLong) := goScan s
  parseLines [] lines tooLong

/-- `ParseString` of the `src` package. -/
def ParseString (s : String) : Redirects.GoResult := Parse s.data

end RedirectsSrc

/-- A token that `isPath` rejects: accepted by `strconv.Atoi`, or containing
`=`, or ending in `!`. -/
def badFrom (t : Str) : Prop :=
  (AtoiFull t).2 = true ∨ containsEq t = true ∨ endsBang t = true

instance (t : Str) : Decidable (badFrom t) := by unfold badFrom; infer_instance

/-- An option token the option loop rejects: no `=`, or a key other than
`Country` or `Language`. -/
def badOpt (tok : Str) : Prop :=
  containsEq tok = false ∨
    ((splitOptions tok).1 ≠ s2l "Country" ∧ (splitOptions tok).1 ≠ s2l "Language")

instance (tok : Str) : Decidable (badOpt tok) := by unfold badOpt; infer_instance

/-- A line longer than the default scanner buffer. -/
def longLine : Str := List.replicate 70000 'a'

/-- One well-formed rule line followed by an over-long line. -/
def scannerInput : Str := s2l "a b\n" ++ longLine

/-! ## Supporting lemmas -/

theorem foldl_cons_eq (l acc : List Str) :
    l.foldl (fun a t => t :: a) acc = l.reverse ++ acc := by
  induction l generalizing acc with
  | nil => simp
  | cons x xs ih => simp [ih]

/-- The insert-then-reverse construction of `List.go` visits the tokens in
their original order. -/
theorem buildList_eq (l : List Str) : RedirectsSrc.buildList l = l := by
  simp [RedirectsSrc.buildList, foldl_cons_eq]

/-- The parameter loop consumes exactly the leading `=`-tokens and stops at
the first token without `=`. -/
theorem scanParams_split (ps : List Str) (t : Str) (rest : List Str)
    (hps : ∀ p ∈ ps, containsEq p = true) (ht : containsEq t = false) :
    Redirects.scanParams (ps ++ t :: rest) = some (ps, t, rest) := by
  induction ps with
  | nil => simp [Redirects.scanParams, ht]
  | cons p ps ih =>
    have hp : containsEq p = true := hps p (by simp)
    have ihh := ih fun q hq => hps q (by simp [hq])
    simp [Redirects.scanParams, hp, ihh]

theorem optStep_err (st : Option (List Str) × Option (List Str) × Option Err)
    (tok : Str) :
    (Redirects.optStep st tok).2.2 = none ↔ st.2.2 = none ∧ ¬ badOpt tok := by
  rcases st with ⟨c, l, e⟩
  rcases hsp : splitOptions tok with ⟨k, v⟩
  by_cases hk1 : k = s2l "Country" <;> by_cases hk2 : k = s2l "Language" <;>
    cases hq : containsEq tok <;>
      simp_all [Redirects.optStep, badOpt]

theorem parseOptions_fold_err (opts : List Str) :
    ∀ st, ((opts.foldl Redirects.optStep st).2.2 = none ↔
      st.2.2 = none ∧ ∀ tok ∈ opts, ¬ badOpt tok) := by
  induction opts with
  | nil => intro st; simp
  | cons tok rest ih =>
    intro st
    rw [List.foldl_cons, ih, optStep_err, List.forall_mem_cons]
    tauto

/-- A bad token anywhere in the option list leaves the loop with a non-nil
error. -/
theorem parseOptions_err (opts : List Str) (h : ∃ tok ∈ opts, badOpt tok) :
    ∃ e, (Redirects.parseOptions opts).2.2 = some e := by
  have hch := parseOptions_fold_err opts (none, none, none)
  rcases hq : (Redirects.parseOptions opts).2.2 with _ | e
  · rw [Redirects.parseOptions] at hq
    rcases h with ⟨tok, htok, hbad⟩
    exact absurd ((hch.mp hq).2 tok htok) (by simpa using hbad)
  · exact ⟨e, rfl⟩

/-- Go map assignment: the stored value is the one just written. -/
theorem lookup_set (m : ParamsMap) (k : Str) (v : PVal) :
    (m.set k v).lookup k = some v := by
  induction m with
  | nil => simp [ParamsMap.set, ParamsMap.lookup]
  | cons kv rest ih =>
    rcases kv with ⟨k', v'⟩
    by_cases h : k' = k <;> simp [ParamsMap.set, ParamsMap.lookup, h, ih]

theorem goLinesAux_replicate (n : Nat) (acc : Str) :
    goLinesAux (List.replicate n 'a') acc = [acc.reverse ++ List.replicate n 'a'] := by
  induction n generalizing acc with
  | zero => simp [goLinesAux]
  | succ n ih => rw [List.replicate_succ]; simp [goLinesAux, ih]

theorem byteLen_replicate (n : Nat) : byteLen (List.replicate n 'a') = n := by
  simp [byteLen, List.map_replicate, List.sum_replicate, smul_eq_mul,
    show ('a'.utf8Size = 1) from rfl]

theorem longLine_ne_nil : longLine ≠ [] := by
  intro h
  have h2 : longLine.length = 0 := by rw [h]; rfl
  rw [longLine, List.length_replicate] at h2
  exact absurd h2 (by norm_num)

theorem byteLen_longLine : byteLen longLine = 70000 := by
  rw [longLine]; exact byteLen_replicate 70000

theorem goLinesAux_step (c : Char) (rest acc : Str) (h : ¬ c = '\n') :
    goLinesAux (c :: rest) acc = goLinesAux rest (c :: acc) := by
  simp only [goLinesAux]; rw [if_neg h]

theorem goLinesAux_newline (rest acc : Str) (h : ¬ rest = []) :
    goLinesAux ('\n' :: rest) acc = acc.reverse :: goLinesAux rest [] := by
  simp only [goLinesAux]; simp [h]

theorem truncScan_cons (l : Str) (rest : List Str) :
    truncScan (l :: rest) =
      if maxScanTokenSize < byteLen l then ([], true)
      else (dropCR l :: (truncScan rest).1, (truncScan rest).2) := by
  simp only [truncScan]

theorem goScan_scannerInput : goScan scannerInput = ([s2l "a b"], true) := by
  have h1 : goLines scannerInput = [s2l "a b", longLine] := by
    show goLines ('a' :: ' ' :: 'b' :: '\n' :: longLine) = _
    rw [show goLines ('a' :: ' ' :: 'b' :: '\n' :: longLine) =
      goLinesAux ('a' :: ' ' :: 'b' :: '\n' :: longLine) [] from rfl]
    rw [goLinesAux_step _ _ _ (by decide), goLinesAux_step _ _ _ (by decide),
      goLinesAux_step _ _ _ (by decide), goLinesAux_newline _ _ longLine_ne_nil,
      longLine, goLinesAux_replicate]
    rfl
  rw [goScan, h1, truncScan_cons, if_neg (by decide), truncScan_cons,
    if_pos (by rw [byteLen_longLine]; norm_num [maxScanTokenSize])]
  rfl

theorem parseLines_lineErr_nil (lines : List Str) :
    ∀ (acc : List Rule) (flag : Bool) (rules : List Rule) (e : Err),
      Redirects.parseLines acc lines flag = .ret rules (some e) →
      e ≠ .scanTooLong → rules = [] := by
  induction lines with
  | nil =>
    intro acc flag rules e h hne
    cases flag <;> simp [Redirects.parseLines] at h
    exact absurd h.2 fun hh => hne hh.symm
  | cons l rest ih =>
    intro acc flag rules e h hne
    cases hl : Redirects.lineOf l <;> simp [Redirects.parseLines, hl] at h
    · exact ih _ _ _ _ h hne
    · exact h.1
    · exact ih _ _ _ _ h hne

/-- The status slot consumes its token and the line goes on whenever the
token is a plain integer, an `integer!` accepted by `parseStatus`, or any
token containing `=` (whose failed `parseStatus` values are kept). -/
theorem statusSlot_consumes (s : Str)
    (h : (AtoiFull s).2 = true ∨ (parseStatus s).2.2 = true ∨
      containsEq s = true) :
    ∃ st fr, Redirects.statusSlot s = some (st, fr) := by
  rcases hA : AtoiFull s with ⟨v, ok⟩
  cases ok with
  | true => exact ⟨v, false, by simp [Redirects.statusSlot, hA]⟩
  | false =>
    rcases hP : parseStatus s with ⟨c, fr, ok2⟩
    cases ok2 with
    | true => exact ⟨c, fr, by simp [Redirects.statusSlot, hA, hP]⟩
    | false =>
      cases hC : containsEq s with
      | true => exact ⟨c, fr, by simp [Redirects.statusSlot, hA, hP, hC]⟩
      | false =>
        rcases h with h | h | h
        · simp [hA] at h
        · simp [hP] at h
        · simp [hC] at h

/-! ## Claims -/

/-- Claim C1: the spec says a `key=value` token right after `To` with no valid
status leaves `Status = 301`, `Force = false` and is reprocessed as an option.
The code instead stores `strconv.Atoi`'s error value 0 into `Status` and drops
the token (`options = options[1:]` is unconditional), so
`from to Country=au,nz` yields `Status = 0` and `Country = nil`.  The second
conjunct shows the `src`-package parser of the same repository produces
exactly the behaviour the claim describes, evidence the top-level code is a
slip. -/
theorem c1_code_eval :
    Redirects.ParseString "from to Country=au,nz" =
      .ret [⟨s2l "from", s2l "to", 0, false, none, none, none⟩] none ∧
    RedirectsSrc.ParseString "from to Country=au,nz" =
      .ret [⟨s2l "from", s2l "to", 301, false, none,
        some [s2l "au", s2l "nz"], none⟩] none := by
  constructor
  · decide
  · decide

/-- Claim C2: the spec says the parser never aborts the process, including on
lines such as `/from a=1`.  The parameter loop
`for i = 1; strings.ContainsAny(fields[i], "="); i++` has no bound check, so
on that very line it indexes past the end of `fields` and panics. -/
theorem c2_code_eval : Redirects.ParseString "/from a=1" = .panics := by
  decide

/-- Claim C3, counterexample: the top-level `Parse` stores `From` without any
validation, so the line `123 /to`, whose `From` token is a bare integer,
parses successfully instead of failing. -/
theorem c3_counterexample :
    Redirects.ParseString "123 /to" =
      .ret [⟨s2l "123", s2l "/to", 301, false, none, none, none⟩] none := by
  decide

/-- Claim C3, amended: the `From` validation the claim describes lives in the
`src` package: its parser routes token 0 through `isPath`, so a line with at
least two tokens whose `From` token is a bare integer, contains `=`, or ends
in `!` is rejected with the corresponding format error. -/
theorem c3_amended (f : Str) (ts : List Str) (hts : ts ≠ []) (hbad : badFrom f) :
    ∃ e, RedirectsSrc.isPath f = .error e ∧
      RedirectsSrc.processTokens (f :: ts) = .fail e := by
  have hb : RedirectsSrc.buildList (f :: ts) = f :: ts := buildList_eq _
  have hex : ∃ e, RedirectsSrc.isPath f = .error e := by
    by_cases h1 : (AtoiFull f).2 = true
    · exact ⟨.numbersNotAllowed f,
        by simp [RedirectsSrc.isPath, RedirectsSrc.isInteger, h1]⟩
    · by_cases h2 : containsEq f = true
      · exact ⟨.eqNotAllowed f,
          by simp [RedirectsSrc.isPath, RedirectsSrc.isInteger, h1, h2]⟩
      · have h3 : endsBang f = true := by
          rcases hbad with h | h | h
          · exact absurd h h1
          · exact absurd h h2
          · exact h
        exact ⟨.bangNotAllowed f,
          by simp [RedirectsSrc.isPath, RedirectsSrc.isInteger, h1, h2, h3]⟩
  obtain ⟨e, he⟩ := hex
  refine ⟨e, he, ?_⟩
  rw [RedirectsSrc.processTokens, hb]
  simp [he]

/-- Claim C3, witness: the purely numeric `From` of the claim text. -/
theorem c3_witness :
    ∃ e, RedirectsSrc.isPath (s2l "123") = .error e ∧
      RedirectsSrc.processTokens [s2l "123", s2l "/to"] = .fail e :=
  c3_amended (s2l "123") [s2l "/to"] (by decide) (Or.inl (by decide))

/-- Claim C4: the spec and the code's own comment ("if status code or
parameters are in `to` place. error out.") require an integer in the `To`
position to fail; instead a successful `strconv.Atoi` skips the whole guard
and the rule is emitted with `To` left at its zero value `""`.  The second
conjunct shows the `src`-package parser, which routes `To` through `isPath`,
fails on the same line exactly as the claim states. -/
theorem c4_code_eval :
    Redirects.ParseString "/from 302" =
      .ret [⟨s2l "/from", [], 301, false, none, none, none⟩] none ∧
    RedirectsSrc.ParseString "/from 302" =
      .ret [] (some (.numbersNotAllowed (s2l "302"))) := by
  constructor
  · decide
  · decide

/-- Claim C5, counterexample: the claim says an unknown option key fails also
when it is the first token after `To`; instead that token is consumed by the
status slot and dropped unvalidated, so `from to Foo=bar` parses successfully
(with `Status` left at the Atoi error value 0). -/
theorem c5_counterexample :
    Redirects.ParseString "from to Foo=bar" =
      .ret [⟨s2l "from", s2l "to", 0, false, none, none, none⟩] none := by
  decide

/-- Claim C5, amended: once the status slot has consumed its token — a plain
integer, an `integer!` accepted by `parseStatus`, or a discarded token
containing `=` — every remaining token must be `Country=...` or
`Language=...` (case-sensitive) and must contain `=`; any bad token among
them makes the parse of the line fail.  The first token after `To` is exempt:
when it is not a valid status but contains `=`, the status slot consumes and
discards it (see the counterexample).  The closed conjunct shows the claimed
failure does occur when the offending token follows a real status. -/
theorem c5_amended :
    (∀ (f t s : Str) (opts : List Str),
      containsEq t = false → (AtoiFull t).2 = false → endsBang t = false →
      ((AtoiFull s).2 = true ∨ (parseStatus s).2.2 = true ∨
        containsEq s = true) →
      (∃ tok ∈ opts, badOpt tok) →
      ∃ e, Redirects.processTokens f (t :: s :: opts) = .fail e) ∧
    Redirects.ParseString "from to 302 Foo=bar" =
      .ret [] (some (.format (s2l "Foo=bar"))) := by
  constructor
  · intro f t s opts ht1 ht2 ht3 hcons hbad
    obtain ⟨st, fr, hss⟩ := statusSlot_consumes s hcons
    obtain ⟨e, he⟩ := parseOptions_err opts hbad
    refine ⟨e, ?_⟩
    rw [Redirects.processTokens]
    rw [show Redirects.scanParams (t :: s :: opts) = some ([], t, s :: opts) by
      simp [Redirects.scanParams, ht1]]
    rcases hpo : Redirects.parseOptions opts with ⟨c, l, e'⟩
    rw [hpo] at he
    simp only at he
    subst he
    simp [ht1, ht2, ht3, Redirects.afterTo, hss, hpo]
  · decide

/-- Claim C5, witness: an unknown option key after a consumed forced status
(`302!`) fails. -/
theorem c5_witness :
    ∃ e, Redirects.processTokens (s2l "from")
      (s2l "to" :: s2l "302!" :: [s2l "Foo=bar"]) = .fail e :=
  c5_amended.1 (s2l "from") (s2l "to") (s2l "302!") [s2l "Foo=bar"]
    (by decide) (by decide) (by decide) (Or.inr (Or.inl (by decide)))
    ⟨s2l "Foo=bar", by decide, by decide⟩

/-- Claim C7, counterexample: the claim says the parameter value keeps
characters after further `=` signs (`k=v=w` stores `v=w`); the code splits on
every `=` and keeps only `parts[1]`, so `k=v=w` stores just `v`. -/
theorem c7_counterexample :
    Redirects.ParseString "/a k=v=w /b" =
      .ret [⟨s2l "/a", s2l "/b", 301, false,
        some [(s2l "k", .str (s2l "v"))], none, none⟩] none ∧
    s2l "v" ≠ s2l "v=w" := by
  constructor
  · decide
  · decide

/-- Claim C7, amended: tokens are consumed as parameters while they contain
`=`; each is split on every `=`, the key is the first part and the stored
value is the second part only (text after a second `=` is dropped); a token
with no `=` would store the boolean `true`.  `from a=1 b=2 to` yields
`Params = {a: "1", b: "2"}` as claimed. -/
theorem c7_amended :
    (∀ (f t : Str) (ps : List Str),
      (∀ p ∈ ps, containsEq p = true) → ps ≠ [] →
      containsEq t = false → (AtoiFull t).2 = false → endsBang t = false →
      Redirects.processTokens f (ps ++ [t]) =
        .rule ⟨f, t, 301, false, some (parseParams ps), none, none⟩) ∧
    parseParams [s2l "k=v=w"] = [(s2l "k", .str (s2l "v"))] := by
  constructor
  · intro f t ps hps hne ht1 ht2 ht3
    have hscan := scanParams_split ps t [] hps ht1
    rw [Redirects.processTokens, hscan]
    simp [hne, ht1, ht2, ht3, Redirects.afterTo]
  · decide

/-- Claim C7, witness: the two-parameter example of the claim. -/
theorem c7_witness :
    Redirects.processTokens (s2l "from") ([s2l "a=1", s2l "b=2"] ++ [s2l "to"]) =
      .rule ⟨s2l "from", s2l "to", 301, false,
        some [(s2l "a", .str (s2l "1")), (s2l "b", .str (s2l "2"))], none, none⟩ :=
  c7_amended.1 (s2l "from") (s2l "to") [s2l "a=1", s2l "b=2"]
    (by decide) (by decide) (by decide) (by decide) (by decide)

/-- Claim C8: a line holding only a source and a destination token yields the
default rule: `Status = 301`, `Force = false`, and `Params`, `Country`,
`Language` all nil; the closed conjunct checks the claim's own `from to`
example through the whole parser. -/
theorem c8_defaults :
    (∀ f t : Str,
      containsEq t = false → (AtoiFull t).2 = false → endsBang t = false →
      Redirects.processTokens f [t] = .rule ⟨f, t, 301, false, none, none, none⟩) ∧
    Redirects.ParseString "from to" =
      .ret [⟨s2l "from", s2l "to", 301, false, none, none, none⟩] none := by
  constructor
  · intro f t ht1 ht2 ht3
    rw [Redirects.processTokens]
    rw [show Redirects.scanParams [t] = some ([], t, []) by
      simp [Redirects.scanParams, ht1]]
    simp [ht1, ht2, ht3, Redirects.afterTo]
  · decide

/-- Claim C8, witness: a generic two-token line. -/
theorem c8_witness :
    Redirects.processTokens (s2l "/x") [s2l "/y"] =
      .rule ⟨s2l "/x", s2l "/y", 301, false, none, none, none⟩ :=
  c8_defaults.1 (s2l "/x") (s2l "/y") (by decide) (by decide) (by decide)

/-- Claim C9, counterexample: the claim says a non-nil error always comes with
a nil rule sequence.  When a line exceeds `bufio.MaxScanTokenSize` the scanner
stops with `ErrTooLong` and `Parse` returns the rules parsed from the earlier
lines alongside that non-nil error: on one good line followed by a 70000-byte
line the result holds one rule and an error at once. -/
theorem c9_counterexample :
    Redirects.Parse scannerInput =
      .ret [⟨s2l "a", s2l "b", 301, false, none, none, none⟩]
        (some .scanTooLong) ∧
    ([⟨s2l "a", s2l "b", 301, false, none, none, none⟩] : List Rule) ≠ [] := by
  constructor
  · rw [Redirects.Parse, goScan_scannerInput]
    decide
  · decide

/-- Claim C9, amended: every line-level parse error (structural or grammar)
returns a nil rule sequence alongside the error; only the scanner's
`ErrTooLong` failure can return earlier rules together with an error. -/
theorem c9_amended (input : Str) (rules : List Rule) (e : Err)
    (h : Redirects.Parse input = .ret rules (some e))
    (hne : e ≠ .scanTooLong) : rules = [] := by
  rw [Redirects.Parse] at h
  exact parseLines_lineErr_nil _ _ _ _ _ h hne

/-- Claim C9, witness: a structural error returns nil rules. -/
theorem c9_witness : ([] : List Rule) = [] :=
  c9_amended (s2l "x") [] (.missingDest (s2l "x")) (by decide) (by decide)

/-- Claim C10: a repeated parameter key keeps the value of the last
occurrence: the closed conjunct runs `from a=1 a=2 to` through the parser and
finds `a` bound to `"2"`; the second conjunct proves last-wins for any
parameter list whose final token splits as `k=v`. -/
theorem c10_lastWins :
    Redirects.ParseString "from a=1 a=2 to" =
      .ret [⟨s2l "from", s2l "to", 301, false,
        some [(s2l "a", .str (s2l "2"))], none, none⟩] none ∧
    (∀ (ps : List Str) (p k v : Str) (rest : List Str),
      splitOn '=' p = k :: v :: rest →
      (parseParams (ps ++ [p])).lookup k = some (.str v)) := by
  constructor
  · decide
  · intro ps p k v rest hsp
    rw [parseParams, List.foldl_append]
    simp only [List.foldl_cons, List.foldl_nil, hsp]
    exact lookup_set _ _ _

/-- Claim C10, witness: `a=1` then `a=2` looks up to `"2"`. -/
theorem c10_witness :
    (parseParams ([s2l "a=1"] ++ [s2l "a=2"])).lookup (s2l "a") =
      some (.str (s2l "2")) :=
  c10_lastWins.2 [s2l "a=1"] (s2l "a=2") (s2l "a") (s2l "2") [] (by decide)

/-- Claim C6, counterexample: the claim says `Force = true` with `Status = n`
exactly when the token is the integer `n` immediately followed by one
trailing `!`.  `parseStatus` deletes every `!`, so `from to 123!!` also
yields `Status = 123, Force = true`; the second conjunct checks that
`123!!` is not of the claimed shape (stripping one `!` leaves `123!`,
which `strconv.Atoi` rejects). -/
theorem c6_counterexample :
    Redirects.ParseString "from to 123!!" =
      .ret [⟨s2l "from", s2l "to", 123, true, none, none, none⟩] none ∧
    Atoi (s2l "123!") = none := by
  constructor
  · decide
  · decide

/-- Claim C6, amended: on a line `from to T`, a plain integer token yields
`Status = n, Force = false`; a rule carries `Force = true` exactly when `T`
is not a plain integer, ends in `!`, and either deleting every `!` from `T`
leaves a `strconv`-accepted integer (which becomes the status, so
`from to 200!` yields `Status = 200, Force = true`) or `T` contains `=`
(in which case the status is `strconv`'s error value). -/
theorem c6_amended (T : Str) :
    (∀ n : Int, Atoi T = some n →
      Redirects.processTokens (s2l "from") [s2l "to", T] =
        .rule ⟨s2l "from", s2l "to", n, false, none, none, none⟩) ∧
    (∀ m : Int, Atoi T = none → endsBang T = true →
      Atoi (removeBangs T) = some m →
      Redirects.processTokens (s2l "from") [s2l "to", T] =
        .rule ⟨s2l "from", s2l "to", m, true, none, none, none⟩) ∧
    (∀ r : Rule, Redirects.processTokens (s2l "from") [s2l "to", T] = .rule r →
      (r.Force = true ↔
        Atoi T = none ∧ endsBang T = true ∧
          (Atoi (removeBangs T) ≠ none ∨ containsEq T = true))) := by
  have hpt : Redirects.processTokens (s2l "from") [s2l "to", T] =
      Redirects.afterTo (s2l "from") (s2l "to") none [T] := rfl
  have haf : ∀ (st : Int) (fr : Bool), Redirects.statusSlot T = some (st, fr) →
      Redirects.afterTo (s2l "from") (s2l "to") none [T] =
        .rule ⟨s2l "from", s2l "to", st, fr, none, none, none⟩ := by
    intro st fr h
    simp [Redirects.afterTo, h, Redirects.parseOptions]
  have haf2 : Redirects.statusSlot T = none →
      Redirects.afterTo (s2l "from") (s2l "to") none [T] = .fail (.format T) := by
    intro h
    simp [Redirects.afterTo, h]
  rcases hA : AtoiFull T with ⟨v, ok⟩
  cases ok with
  | true =>
    have hAt : Atoi T = some v := by simp [Atoi, hA]
    have hss : Redirects.statusSlot T = some (v, false) := by
      simp [Redirects.statusSlot, hA]
    refine ⟨?_, ?_, ?_⟩
    · intro n hn
      rw [hAt] at hn
      cases hn
      rw [hpt, haf _ _ hss]
    · intro m h1 _ _
      rw [hAt] at h1
      cases h1
    · intro r hr
      rw [hpt, haf _ _ hss] at hr
      cases hr
      simp [hAt]
  | false =>
    have hAt : Atoi T = none := by simp [Atoi, hA]
    cases hE : endsBang T with
    | false =>
      have hps : parseStatus T = (v, false, false) := by
        simp [parseStatus, hE, hA]
      have hforce : ∀ r : Rule,
          Redirects.processTokens (s2l "from") [s2l "to", T] = .rule r →
          r.Force = false := by
        intro r hr
        cases hC : containsEq T with
        | false =>
          have hss : Redirects.statusSlot T = none := by
            simp [Redirects.statusSlot, hA, hps, hC]
          rw [hpt, haf2 hss] at hr
          cases hr
        | true =>
          have hss : Redirects.statusSlot T = some (v, false) := by
            simp [Redirects.statusSlot, hA, hps, hC]
          rw [hpt, haf _ _ hss] at hr
          cases hr
          rfl
      refine ⟨?_, ?_, ?_⟩
      · intro n hn; rw [hAt] at hn; cases hn
      · intro m _ h2 _; exact absurd h2 (by simp)
      · intro r hr
        simp [hforce r hr, hE]
    | true =>
      rcases hS : AtoiFull (removeBangs T) with ⟨w, ok2⟩
      have hps : parseStatus T = (w, true, ok2) := by
        simp [parseStatus, hE, hS]
      cases ok2 with
      | true =>
        have hSt : Atoi (removeBangs T) = some w := by simp [Atoi, hS]
        have hss : Redirects.statusSlot T = some (w, true) := by
          simp [Redirects.statusSlot, hA, hps]
        refine ⟨?_, ?_, ?_⟩
        · intro n hn; rw [hAt] at hn; cases hn
        · intro m _ _ h3
          rw [hSt] at h3
          cases h3
          rw [hpt, haf _ _ hss]
        · intro r hr
          rw [hpt, haf _ _ hss] at hr
          cases hr
          simp [hAt, hE, hSt]
      | false =>
        have hSt : Atoi (removeBangs T) = none := by simp [Atoi, hS]
        cases hC : containsEq T with
        | false =>
          have hss : Redirects.statusSlot T = none := by
            simp [Redirects.statusSlot, hA, hps, hC]
          refine ⟨?_, ?_, ?_⟩
          · intro n hn; rw [hAt] at hn; cases hn
          · intro m _ _ h3; rw [hSt] at h3; cases h3
          · intro r hr
            rw [hpt, haf2 hss] at hr
            cases hr
        | true =>
          have hss : Redirects.statusSlot T = some (w, true) := by
            simp [Redirects.statusSlot, hA, hps, hC]
          refine ⟨?_, ?_, ?_⟩
          · intro n hn; rw [hAt] at hn; cases hn
          · intro m _ _ h3; rw [hSt] at h3; cases h3
          · intro r hr
            rw [hpt, haf _ _ hss] at hr
            cases hr
            simp [hAt, hE, hC]

/-- Claim C6, witness: `from to 200!` yields status 200 and force. -/
theorem c6_witness :
    Redirects.processTokens (s2l "from") [s2l "to", s2l "200!"] =
      .rule ⟨s2l "from", s2l "to", 200, true, none, none, none⟩ :=
  (c6_amended (s2l "200!")).2.1 200 (by decide) (by decide) (by decide)
